import Mathlib

/-!
Shallow embedding of the `@scispike/google-cloud-support` FirestoreRepository
trait (`src/main/repositories/FirestoreRepository.js`) together with the parts
of its collaborators that the verified claims depend on.

Modelling conventions:
* JavaScript numbers are modelled as exact rationals (`ℚ`); IEEE-754 double
  rounding is idealised as exact arithmetic.  `NaN`/`Infinity` are outside the
  model (no claim depends on them).
* The Firestore `Timestamp` class (an external dependency, not part of this
  repository) is modelled from its documented behaviour: a pair of a seconds
  count and a nanoseconds count, `fromMillis`, `toMillis`, and a constructor
  that validates that both arguments are integers and that the nanoseconds
  count lies in `[0, 999999999]`.
* Thrown JavaScript errors are modelled with `Except ErrKind`; the error
  taxonomy of `@scispike/nodejs-support` is modelled as the enumeration
  `ErrKind` of distinct kinds.
* `moment` instances are modelled by their UTC epoch-millisecond value (an
  integer; `moment#valueOf` returns integral milliseconds).  `moment.utc`
  applied to a number produces a valid moment exactly when the magnitude of
  the number is at most 8.64e15 (the ECMAScript `TimeClip` range), and the
  stored value is the number truncated toward zero.
-/

/-- Error kinds of the `@scispike/nodejs-support` error module (plus the
generic JavaScript `TypeError` and the argument-validation error thrown by
the `Timestamp` constructor).  The module exports *distinct* error classes;
this enumeration models that distinctness. -/
inductive ErrKind where
  | objectNotFound
  | objectExists
  | illegalArgument
  | methodNotImplemented
  | missingRequiredArgument
  | argValidation
  | typeError
deriving DecidableEq, Repr

/-- The binding on line 11 of `FirestoreRepository.js`:
`const ObjectNotFoundError = require('@scispike/nodejs-support').errors.ObjectNotFoundError`. -/
def boundObjectNotFoundError : ErrKind := ErrKind.objectNotFound

/-- The binding on line 12 of `FirestoreRepository.js`:
`const ObjectExistsError = require('@scispike/nodejs-support').errors.ObjectNotFoundError`.
Note: the source binds the local name `ObjectExistsError` to the module's
`ObjectNotFoundError` class (not to `errors.ObjectExistsError`). -/
def boundObjectExistsError : ErrKind := ErrKind.objectNotFound

/-- Model of the external Firestore `Timestamp`: a seconds count and a
nanoseconds count (both integers once the validating constructor has
accepted them). -/
structure Timestamp where
  seconds : ℤ
  nanoseconds : ℤ
deriving DecidableEq, Repr

/-- `Timestamp#toMillis`: `seconds * 1000 + nanoseconds / 1e6` (exact
rational arithmetic models the JavaScript number computation). -/
def Timestamp.toMillis (t : Timestamp) : ℚ :=
  (t.seconds : ℚ) * 1000 + (t.nanoseconds : ℚ) / 1000000

/-- The validating `Timestamp` constructor `new Timestamp(seconds, nanoseconds)`:
both arguments must be integers and the nanoseconds count must lie in
`[0, 999999999]`; otherwise the constructor throws a validation error. -/
def Timestamp.mkE (s n : ℚ) : Except ErrKind Timestamp :=
  if s.den = 1 ∧ n.den = 1 ∧ 0 ≤ n ∧ n ≤ 999999999 then
    Except.ok ⟨s.num, n.num⟩
  else
    Except.error ErrKind.argValidation

/-- `Timestamp.fromMillis(milliseconds)`:
`seconds = Math.floor(milliseconds / 1000)`,
`nanos = (milliseconds - seconds * 1000) * 1e6`, then the validating
constructor. -/
def Timestamp.fromMillisE (ms : ℚ) : Except ErrKind Timestamp :=
  Timestamp.mkE ((⌊ms / 1000⌋ : ℤ) : ℚ) ((ms - ((⌊ms / 1000⌋ : ℤ) : ℚ) * 1000) * 1000000)

/-- The value `Timestamp.fromMillis` produces on an integral millisecond
count (always valid): seconds is the floor division by 1000 and the
nanoseconds count is the remainder scaled to nanoseconds. -/
def Timestamp.fromMillisInt (m : ℤ) : Timestamp :=
  ⟨m / 1000, m % 1000 * 1000000⟩

theorem Timestamp.fromMillisE_intCast (m : ℤ) :
    Timestamp.fromMillisE (m : ℚ) = Except.ok (Timestamp.fromMillisInt m) := by
  have hfloor : ⌊(m : ℚ) / 1000⌋ = m / 1000 := by
    have h := Rat.floor_intCast_div_natCast m 1000
    simpa using h
  have hrem : ((m : ℚ) - ((m / 1000 : ℤ) : ℚ) * 1000) * 1000000
      = ((m % 1000 * 1000000 : ℤ) : ℚ) := by
    have hmod : (m % 1000 : ℤ) = m - 1000 * (m / 1000) := Int.emod_def m 1000
    push_cast [hmod]
    ring
  have hr0 : (0 : ℤ) ≤ m % 1000 := Int.emod_nonneg m (by norm_num)
  have hr1 : m % 1000 < 1000 := Int.emod_lt_of_pos m (by norm_num)
  unfold Timestamp.fromMillisE
  rw [hfloor, hrem]
  unfold Timestamp.mkE
  rw [if_pos]
  · simp only [Rat.intCast_num, Timestamp.fromMillisInt]
  · refine ⟨Rat.intCast_den _, Rat.intCast_den _, ?_, ?_⟩
    · exact_mod_cast mul_nonneg hr0 (by norm_num)
    · have h2 : (m % 1000 * 1000000 : ℤ) ≤ 999999999 := by
        have h3 : m % 1000 ≤ 999 := by omega
        nlinarith
      exact_mod_cast h2

theorem Timestamp.toMillis_fromMillisInt (m : ℤ) :
    (Timestamp.fromMillisInt m).toMillis = (m : ℚ) := by
  unfold Timestamp.fromMillisInt Timestamp.toMillis
  have h : (1000 : ℤ) * (m / 1000) + m % 1000 = m := Int.ediv_add_emod m 1000
  have hq : (1000 : ℚ) * ((m / 1000 : ℤ) : ℚ) + ((m % 1000 : ℤ) : ℚ) = (m : ℚ) := by
    exact_mod_cast congrArg (Int.cast : ℤ → ℚ) h
  push_cast
  field_simp
  linarith [hq]

/-- Validity of a timestamp: the invariant the validating constructor
establishes for the nanoseconds component. -/
def Timestamp.valid (t : Timestamp) : Prop :=
  0 ≤ t.nanoseconds ∧ t.nanoseconds ≤ 999999999

theorem Timestamp.fromMillisInt_valid (m : ℤ) : (Timestamp.fromMillisInt m).valid := by
  unfold Timestamp.fromMillisInt Timestamp.valid
  constructor
  · have := Int.emod_nonneg m (show (1000:ℤ) ≠ 0 by norm_num)
    simp only
    positivity
  · have h1 : m % 1000 < 1000 := Int.emod_lt_of_pos m (by norm_num)
    have h0 : (0:ℤ) ≤ m % 1000 := Int.emod_nonneg m (by norm_num)
    simp only
    nlinarith

/-- Round trip: feeding a valid timestamp's `toMillis` back into `fromMillis`
reconstructs the identical timestamp (exact arithmetic). -/
theorem Timestamp.fromMillisE_toMillis (t : Timestamp) (h : t.valid) :
    Timestamp.fromMillisE t.toMillis = Except.ok t := by
  obtain ⟨h0, h1⟩ := h
  unfold Timestamp.fromMillisE Timestamp.toMillis
  have hdiv : ((t.seconds : ℚ) * 1000 + (t.nanoseconds : ℚ) / 1000000) / 1000
      = (t.seconds : ℚ) + (t.nanoseconds : ℚ) / 1000000000 := by
    field_simp
    ring
  have hfrac0 : (0 : ℚ) ≤ (t.nanoseconds : ℚ) / 1000000000 := by positivity
  have hfrac1 : (t.nanoseconds : ℚ) / 1000000000 < 1 := by
    rw [div_lt_one (by norm_num)]
    have : (t.nanoseconds : ℚ) ≤ 999999999 := by exact_mod_cast h1
    linarith
  have hfloor : ⌊((t.seconds : ℚ) * 1000 + (t.nanoseconds : ℚ) / 1000000) / 1000⌋
      = t.seconds := by
    rw [hdiv, Int.floor_int_add]
    have : ⌊(t.nanoseconds : ℚ) / 1000000000⌋ = 0 := by
      rw [Int.floor_eq_zero_iff]
      exact ⟨hfrac0, hfrac1⟩
    omega
  rw [hfloor]
  have hrem : ((t.seconds : ℚ) * 1000 + (t.nanoseconds : ℚ) / 1000000
      - (t.seconds : ℚ) * 1000) * 1000000 = (t.nanoseconds : ℚ) := by
    field_simp
    ring
  rw [hrem]
  unfold Timestamp.mkE
  rw [if_pos]
  · simp
  · refine ⟨by simp, by simp, by exact_mod_cast h0, by exact_mod_cast h1⟩

/-- Model of JavaScript values as they flow through the repository trait.
Functions are represented as opaque named markers (they are never invoked
through this type); `mom`/`dateV` carry the integral epoch-millisecond value
of a valid moment / `Date`; `periodV` models a `Period` (or `DatePeriod`)
instance with its constructor name and its `_begin`/`_end` fields (`undef`
when unset); `enumInst` models an `enumify` `Enum` member by its symbolic
name and ordinal. -/
inductive JSVal where
  | undef
  | null
  | boolV (b : Bool)
  | num (q : ℚ)
  | str (s : String)
  | arr (elems : List JSVal)
  | obj (fields : List (String × JSVal))
  | tsV (t : Timestamp)
  | mom (millis : ℤ)
  | dateV (millis : ℤ)
  | enumInst (nm : String) (ordinal : ℕ)
  | periodV (variant : String) (beginF endF : JSVal)
  | funcV (nm : String)

/-- JavaScript truthiness.  `undefined`, `null`, `false`, `0` and the empty
string are falsy; every object (arrays, moments, dates, timestamps, periods,
enum members, functions) is truthy. -/
def JSVal.truthy : JSVal → Bool
  | .undef => false
  | .null => false
  | .boolV b => b
  | .num q => if q = 0 then false else true
  | .str s => if s = "" then false else true
  | _ => true

/-- Property read `o[k]` on a plain object's field list: `none` models the
JavaScript result `undefined` for a missing field. -/
def objGet (k : String) : List (String × JSVal) → Option JSVal
  | [] => none
  | p :: rest => if p.1 = k then some p.2 else objGet k rest

/-- Property write `o[k] = v` on a plain object's field list: replaces the
value in place when the key exists (keeping its position, as JavaScript
does) and appends otherwise. -/
def objSet (o : List (String × JSVal)) (k : String) (v : JSVal) : List (String × JSVal) :=
  match o with
  | [] => [(k, v)]
  | p :: rest => if p.1 = k then (p.1, v) :: rest else p :: objSet rest k v

/-- ECMAScript truncation toward zero (`ToIntegerOrInfinity` on a finite
number), used by `new Date(number)` and hence by `moment.utc(number)`. -/
def jsTrunc (q : ℚ) : ℤ := if 0 ≤ q then ⌊q⌋ else ⌈q⌉

/-- `moment.utc(number)`: the resulting moment is valid exactly when the
magnitude of the number is within the ECMAScript `TimeClip` range
(8.64e15 ms); an invalid moment makes `_toMoment` throw
`IllegalArgumentError`, which is folded into the error case here.  The
moment's value is the number truncated toward zero. -/
def momentUtcQ (q : ℚ) : Except ErrKind ℤ :=
  if |q| ≤ 8640000000000000 then Except.ok (jsTrunc q) else Except.error ErrKind.illegalArgument

/-- Reads a field of a plain object when the field holds a number
(`typeof o[k] === 'number'` together with the value). -/
def fieldNum (v : JSVal) (k : String) : Option ℚ :=
  match v with
  | JSVal.obj fs =>
    match objGet k fs with
    | some (JSVal.num q) => some q
    | _ => none
  | _ => none

/-- `_isTimestampLike(it, valueIfInstanceOf)` (lines 184-187): a `Timestamp`
instance yields `valueIfInstanceOf`; otherwise the value is timestamp-like
when both `it._seconds` and `it._nanoseconds` are numbers. -/
def _isTimestampLike (it : JSVal) (valueIfInstanceOf : Bool) : Bool :=
  match it with
  | JSVal.tsV _ => valueIfInstanceOf
  | JSVal.obj fs =>
    (match objGet "_seconds" fs with | some (JSVal.num _) => true | _ => false)
      && (match objGet "_nanoseconds" fs with | some (JSVal.num _) => true | _ => false)
  | _ => false

/-- `_fromTimestampDocument(plain)` (lines 180-182):
`plain && new Timestamp(plain._seconds, plain._nanoseconds)`.  A falsy
argument is returned unchanged; otherwise the validating `Timestamp`
constructor runs on the `_seconds`/`_nanoseconds` fields (a missing or
non-numeric field fails the constructor's integer validation). -/
def _fromTimestampDocument (plain : JSVal) : Except ErrKind JSVal :=
  if plain.truthy = false then Except.ok plain
  else
    match fieldNum plain "_seconds", fieldNum plain "_nanoseconds" with
    | some s, some n => (Timestamp.mkE s n).map JSVal.tsV
    | _, _ => Except.error ErrKind.argValidation

/-- `_toMoment(it)` (lines 169-178): falsy input is returned unchanged;
a timestamp-like plain object is first turned into a real `Timestamp`;
a `Timestamp` is converted to milliseconds; the result is parsed with
`moment.utc` and an invalid moment raises `IllegalArgumentError`.
The general string-parsing path of `moment.utc` is not modelled (no claim
depends on it): non-numeric, non-date inputs are treated as invalid. -/
def _toMoment (it : JSVal) : Except ErrKind JSVal := do
  if it.truthy = false then return it
  let it₂ ← if _isTimestampLike it false then _fromTimestampDocument it else pure it
  let it₃ :=
    match it₂ with
    | JSVal.tsV t => JSVal.num t.toMillis
    | v => v
  match it₃ with
  | JSVal.num q => (momentUtcQ q).map JSVal.mom
  | JSVal.mom m => Except.ok (JSVal.mom m)
  | JSVal.dateV m => Except.ok (JSVal.mom m)
  | _ => Except.error ErrKind.illegalArgument

/-- `_toTimestamp(it)` (lines 145-155): a `Timestamp` is converted to
milliseconds, a moment via `valueOf()`, a `Date` via `getTime()`; then
`Timestamp.fromMillis` runs and any error it raises is rethrown as
`IllegalArgumentError`.  For a non-numeric leftover value `Math.floor`
produces `NaN` and the constructor's validation fails, which the `catch`
also turns into `IllegalArgumentError`. -/
def _toTimestamp (it : JSVal) : Except ErrKind Timestamp :=
  let msOpt : Option ℚ :=
    match it with
    | JSVal.tsV t => some t.toMillis
    | JSVal.mom m => some (m : ℚ)
    | JSVal.dateV m => some (m : ℚ)
    | JSVal.num q => some q
    | _ => none
  match msOpt with
  | some q =>
    match Timestamp.fromMillisE q with
    | Except.ok t => Except.ok t
    | Except.error _ => Except.error ErrKind.illegalArgument
  | none => Except.error ErrKind.illegalArgument

theorem jsTrunc_intCast (m : ℤ) : jsTrunc (m : ℚ) = m := by
  unfold jsTrunc
  split
  · exact Int.floor_intCast m
  · exact Int.ceil_intCast m

theorem momentUtcQ_intCast (m : ℤ) (h : |m| ≤ 8640000000000000) :
    momentUtcQ (m : ℚ) = Except.ok m := by
  have habs : |(m : ℚ)| ≤ 8640000000000000 := by
    rw [← Int.cast_abs]
    exact_mod_cast h
  unfold momentUtcQ
  rw [if_pos habs, jsTrunc_intCast]

/-- Round a rational to the nearest integer, ties to even (the IEEE-754
default rounding direction, applied at integer granularity). -/
def roundTiesEven (m : ℚ) : ℤ :=
  if m - ⌊m⌋ < 1/2 then ⌊m⌋
  else if 1/2 < m - ⌊m⌋ then ⌊m⌋ + 1
  else if ⌊m⌋ % 2 = 0 then ⌊m⌋ else ⌊m⌋ + 1

theorem roundTiesEven_intCast (z : ℤ) : roundTiesEven (z : ℚ) = z := by
  unfold roundTiesEven
  rw [Int.floor_intCast, sub_self]
  norm_num

theorem abs_roundTiesEven_sub (m : ℚ) : |(roundTiesEven m : ℚ) - m| ≤ 1/2 := by
  have h0 : (⌊m⌋ : ℚ) ≤ m := Int.floor_le m
  have h1 : m < ⌊m⌋ + 1 := Int.lt_floor_add_one m
  unfold roundTiesEven
  split
  · rename_i h
    rw [abs_of_nonpos (by linarith)]
    linarith
  · rename_i h
    push_neg at h
    split
    · rename_i h2
      push_cast
      rw [abs_of_nonneg (by linarith)]
      linarith
    · rename_i h2
      push_neg at h2
      split
      · rw [abs_of_nonpos (by linarith)]
        linarith
      · push_cast
        rw [abs_of_nonneg (by linarith)]
        linarith

/-- IEEE-754 binary64 round-to-nearest-even of a finite rational: scale
the magnitude into the 53-bit mantissa binade `[2^52, 2^53)`, round to the
nearest integer with ties to even, and scale back.  Subnormal underflow
and overflow to infinity are outside the model; no value in the
developments below reaches them. -/
def roundDouble (q : ℚ) : ℚ :=
  if q = 0 then 0
  else
    (if 0 < q then 1 else -1)
      * (roundTiesEven (|q| / 2 ^ (Int.log 2 |q| - 52)) : ℚ)
      * 2 ^ (Int.log 2 |q| - 52)

/-- Integers of magnitude below `2^53` are exactly representable: the
binary64 rounding returns them unchanged. -/
theorem roundDouble_intCast (z : ℤ) (h : |z| < 2 ^ 53) : roundDouble (z : ℚ) = z := by
  by_cases hz : z = 0
  · subst hz
    simp [roundDouble]
  · have hq0 : (z : ℚ) ≠ 0 := Int.cast_ne_zero.mpr hz
    have hpos : (0 : ℚ) < |(z : ℚ)| := abs_pos.mpr hq0
    have hlt : |(z : ℚ)| < ((2 : ℕ) : ℚ) ^ ((53 : ℤ)) := by
      rw [← Int.cast_abs]
      have h2 : ((|z| : ℤ) : ℚ) < ((2 ^ 53 : ℤ) : ℚ) := by exact_mod_cast h
      calc ((|z| : ℤ) : ℚ) < ((2 ^ 53 : ℤ) : ℚ) := h2
        _ = ((2 : ℕ) : ℚ) ^ ((53 : ℤ)) := by norm_num
    have hlog : Int.log 2 |(z : ℚ)| < 53 :=
      (Int.lt_zpow_iff_log_lt (by norm_num) hpos).mp hlt
    set e : ℤ := Int.log 2 |(z : ℚ)| - 52 with he
    have he0 : e ≤ 0 := by omega
    set d : ℕ := (-e).toNat with hd
    have hde : (d : ℤ) = -e := Int.toNat_of_nonneg (by omega)
    have h2e : (2 : ℚ) ^ e ≠ 0 := by positivity
    have hpowcancel : (2 : ℚ) ^ (d : ℤ) * (2 : ℚ) ^ e = 1 := by
      rw [← zpow_add₀ (by norm_num : (2 : ℚ) ≠ 0), hde]
      simp
    have harg : |(z : ℚ)| / 2 ^ e = ((|z| * 2 ^ d : ℤ) : ℚ) := by
      have h1 : |(z : ℚ)| / 2 ^ e = |(z : ℚ)| * 2 ^ (-e : ℤ) := by
        rw [zpow_neg, div_eq_mul_inv]
      rw [h1, ← hde, ← Int.cast_abs]
      push_cast
      rw [zpow_natCast]
    rw [roundDouble, if_neg hq0, harg, roundTiesEven_intCast]
    have hmain : ((|z| * 2 ^ d : ℤ) : ℚ) * 2 ^ e = |(z : ℚ)| := by
      push_cast
      rw [← Int.cast_abs, mul_assoc, ← zpow_natCast (2 : ℚ) d, hpowcancel, mul_one]
    by_cases hzpos : 0 < (z : ℚ)
    · rw [if_pos hzpos, one_mul, hmain, abs_of_pos hzpos]
    · rw [if_neg hzpos]
      have hzneg : (z : ℚ) < 0 := lt_of_le_of_ne (not_lt.mp hzpos) hq0
      have hneg : (-1 : ℚ) * ((|z| * 2 ^ d : ℤ) : ℚ) * 2 ^ e
          = -(((|z| * 2 ^ d : ℤ) : ℚ) * 2 ^ e) := by ring
      rw [hneg, hmain, abs_of_neg hzneg, neg_neg]

/-- The binary64 rounding error is at most half an ulp:
`2 ^ (Int.log 2 |q| - 53)`. -/
theorem abs_roundDouble_sub (q : ℚ) (hq : q ≠ 0) :
    |roundDouble q - q| ≤ 2 ^ (Int.log 2 |q| - 53) := by
  set e : ℤ := Int.log 2 |q| - 52 with he
  have h2e : (0 : ℚ) < 2 ^ e := by positivity
  have hb := abs_roundTiesEven_sub (|q| / 2 ^ e)
  have hhalf : (2 : ℚ) ^ (Int.log 2 |q| - 53) = 1 / 2 * 2 ^ e := by
    have hexp : Int.log 2 |q| - 53 = e + (-1) := by omega
    rw [hexp, zpow_add₀ (by norm_num : (2 : ℚ) ≠ 0)]
    norm_num
    ring
  rw [roundDouble, if_neg hq]
  rcases lt_or_gt_of_ne hq with hneg | hpos
  · rw [if_neg (by linarith)]
    have habs : |q| = -q := abs_of_neg hneg
    have hrw : (-1 : ℚ) * (roundTiesEven (|q| / 2 ^ e) : ℚ) * 2 ^ e - q
        = -(((roundTiesEven (|q| / 2 ^ e) : ℚ) - |q| / 2 ^ e) * 2 ^ e) := by
      rw [habs]
      field_simp
      ring
    rw [hrw, abs_neg, abs_mul, abs_of_pos h2e, hhalf]
    exact mul_le_mul_of_nonneg_right hb (le_of_lt h2e)
  · rw [if_pos hpos]
    have habs : |q| = q := abs_of_pos hpos
    have hrw : (1 : ℚ) * (roundTiesEven (|q| / 2 ^ e) : ℚ) * 2 ^ e - q
        = ((roundTiesEven (|q| / 2 ^ e) : ℚ) - |q| / 2 ^ e) * 2 ^ e := by
      rw [habs]
      field_simp
    rw [hrw, abs_mul, abs_of_pos h2e, hhalf]
    exact mul_le_mul_of_nonneg_right hb (le_of_lt h2e)

/-- `Math.floor` applied to the double quotient `m / 1000` recovers the
true integer quotient for every whole-millisecond count in the ECMAScript
date range: the quotient is below `2^43`, so the rounding error (at most
`2^-11`) cannot carry it across an integer boundary. -/
theorem floor_roundDouble_div1000 (s k : ℤ) (hk0 : 0 ≤ k) (hk1 : k < 1000)
    (hs : |s| ≤ 8640000000000) :
    ⌊roundDouble (((s * 1000 + k : ℤ) : ℚ) / 1000)⌋ = s := by
  by_cases hk : k = 0
  · subst hk
    have hq : ((s * 1000 + 0 : ℤ) : ℚ) / 1000 = (s : ℚ) := by
      push_cast
      field_simp
    rw [hq, roundDouble_intCast s (by omega), Int.floor_intCast]
  · set q : ℚ := ((s * 1000 + k : ℤ) : ℚ) / 1000 with hqdef
    have hq_eq : q = (s : ℚ) + (k : ℚ) / 1000 := by
      rw [hqdef]
      push_cast
      ring
    have hk0q : (1 : ℚ) ≤ (k : ℚ) := by
      have : (1 : ℤ) ≤ k := by omega
      exact_mod_cast this
    have hk1q : (k : ℚ) ≤ 999 := by
      have : k ≤ (999 : ℤ) := by omega
      exact_mod_cast this
    have hq_lb : (s : ℚ) + 1 / 1000 ≤ q := by
      rw [hq_eq]
      have : (1 : ℚ) / 1000 ≤ (k : ℚ) / 1000 := by linarith
      linarith
    have hq_ub : q ≤ (s : ℚ) + 999 / 1000 := by
      rw [hq_eq]
      have : (k : ℚ) / 1000 ≤ 999 / 1000 := by linarith
      linarith
    have hq0 : q ≠ 0 := by
      intro h0
      have hzero : (s * 1000 + k : ℤ) = 0 := by
        have := h0
        rw [hqdef] at this
        have h1 : ((s * 1000 + k : ℤ) : ℚ) = 0 := by
          field_simp at this
          exact_mod_cast this
        exact_mod_cast h1
      omega
    have hqpos : (0 : ℚ) < |q| := abs_pos.mpr hq0
    have hqabs : |q| < ((2 : ℕ) : ℚ) ^ ((43 : ℤ)) := by
      have habs_le : |(s : ℚ)| ≤ 8640000000000 := by
        rw [← Int.cast_abs]
        exact_mod_cast hs
      have h1 : |q| ≤ |(s : ℚ)| + 1 := by
        rw [hq_eq]
        calc |(s : ℚ) + (k : ℚ) / 1000| ≤ |(s : ℚ)| + |(k : ℚ) / 1000| := abs_add _ _
          _ ≤ |(s : ℚ)| + 1 := by
            have hnn : (0 : ℚ) ≤ (k : ℚ) / 1000 := by positivity
            have : |(k : ℚ) / 1000| = (k : ℚ) / 1000 := abs_of_nonneg hnn
            rw [this]
            have : (k : ℚ) / 1000 ≤ 1 := by linarith
            linarith
      calc |q| ≤ |(s : ℚ)| + 1 := h1
        _ ≤ 8640000000001 := by linarith
        _ < ((2 : ℕ) : ℚ) ^ ((43 : ℤ)) := by norm_num
    have hlog : Int.log 2 |q| < 43 := (Int.lt_zpow_iff_log_lt (by norm_num) hqpos).mp hqabs
    have hulp : |roundDouble q - q| ≤ 1 / 2048 := by
      have h1 : |roundDouble q - q| ≤ 2 ^ (Int.log 2 |q| - 53) := abs_roundDouble_sub q hq0
      have h2 : (2 : ℚ) ^ (Int.log 2 |q| - 53) ≤ 2 ^ ((-11 : ℤ)) := by
        apply zpow_le_zpow_right₀ (by norm_num : (1 : ℚ) ≤ 2)
        omega
      have h3 : (2 : ℚ) ^ ((-11 : ℤ)) = 1 / 2048 := by
        rw [zpow_neg]
        norm_num
      calc |roundDouble q - q| ≤ 2 ^ (Int.log 2 |q| - 53) := h1
        _ ≤ 2 ^ ((-11 : ℤ)) := h2
        _ = 1 / 2048 := h3
    have habs := abs_sub_le_iff.mp hulp
    rw [Int.floor_eq_iff]
    constructor
    · linarith [habs.2]
    · linarith [habs.1]

/-- `Timestamp#toMillis` with the IEEE-754 double rounding of line 146's
arithmetic made explicit: the product `seconds * 1000`, the quotient
`nanoseconds / 1e6` and their sum are each correctly-rounded binary64
operations. -/
def Timestamp.toMillisFl (t : Timestamp) : ℚ :=
  roundDouble (roundDouble ((t.seconds : ℚ) * 1000)
    + roundDouble ((t.nanoseconds : ℚ) / 1000000))

/-- `Timestamp.fromMillis` with the IEEE-754 double rounding of line 151's
arithmetic made explicit: `Math.floor` of the rounded quotient gives the
seconds; the rounded difference scaled by the rounded product `* 1e6`
gives the nanoseconds argument of the validating constructor. -/
def Timestamp.fromMillisFlE (ms : ℚ) : Except ErrKind Timestamp :=
  Timestamp.mkE ((⌊roundDouble (ms / 1000)⌋ : ℤ) : ℚ)
    (roundDouble (roundDouble (ms
        - roundDouble (((⌊roundDouble (ms / 1000)⌋ : ℤ) : ℚ) * 1000)) * 1000000))

/-- `_toTimestamp` (lines 145-155) with the IEEE-754 double rounding of
the `toMillis`/`fromMillis` arithmetic made explicit (moments and dates
carry integral millisecond values, which the double representation holds
exactly within the date range). -/
def _toTimestampFl (it : JSVal) : Except ErrKind Timestamp :=
  let msOpt : Option ℚ :=
    match it with
    | JSVal.tsV t => some t.toMillisFl
    | JSVal.mom m => some (m : ℚ)
    | JSVal.dateV m => some (m : ℚ)
    | JSVal.num q => some q
    | _ => none
  match msOpt with
  | some q =>
    match Timestamp.fromMillisFlE q with
    | Except.ok t => Except.ok t
    | Except.error _ => Except.error ErrKind.illegalArgument
  | none => Except.error ErrKind.illegalArgument


/-- The binade of a positive rational, characterised by the two power
bounds (used to evaluate `roundDouble` at concrete inputs, since
`Int.log` is not kernel-computable). -/
theorem int_log_eq_of (q : ℚ) (e : ℤ) (hq : 0 < q)
    (h1 : (2 : ℚ) ^ e ≤ q) (h2 : q < (2 : ℚ) ^ (e + 1)) :
    Int.log 2 q = e := by
  have ha : e ≤ Int.log 2 q := by
    rw [← Int.zpow_le_iff_le_log (by norm_num) hq]
    exact_mod_cast h1
  have hb : Int.log 2 q < e + 1 := by
    rw [← Int.lt_zpow_iff_log_lt (by norm_num) hq]
    exact_mod_cast h2
  omega

theorem roundDouble_eval_pos (q : ℚ) (e : ℤ) (hq : 0 < q) (hlog : Int.log 2 q = e) :
    roundDouble q = (roundTiesEven (q / 2 ^ (e - 52)) : ℚ) * 2 ^ (e - 52) := by
  unfold roundDouble
  rw [if_neg hq.ne', if_pos hq, abs_of_pos hq, hlog, one_mul]

theorem roundDouble_zero : roundDouble 0 = 0 := by
  simp [roundDouble]

theorem roundDouble_one5e12 : roundDouble (1500000000000 : ℚ) = 1500000000000 := by
  have h := roundDouble_intCast 1500000000000 (by decide)
  exact_mod_cast h

theorem roundDouble_one5e9 : roundDouble (1500000000 : ℚ) = 1500000000 := by
  have h := roundDouble_intCast 1500000000 (by decide)
  exact_mod_cast h

/-- The binary64 value of the quotient `1 / 1e6` (one nanosecond in
milliseconds): the nearest double lies just below `1e-6`. -/
theorem roundDouble_nano : roundDouble ((1 : ℚ) / 1000000)
    = 4722366482869645 / 4722366482869645213696 := by
  have hlog : Int.log 2 ((1 : ℚ) / 1000000) = -20 :=
    int_log_eq_of _ _ (by norm_num) (by rw [zpow_neg]; norm_num) (by norm_num)
  rw [roundDouble_eval_pos _ (-20) (by norm_num) hlog]
  have hexp : ((-20 : ℤ) - 52) = -72 := by norm_num
  rw [hexp]
  have harg : ((1 : ℚ) / 1000000) / 2 ^ ((-72 : ℤ))
      = 4722366482869645213696 / 1000000 := by
    rw [zpow_neg]
    norm_num
  rw [harg]
  have hround : roundTiesEven ((4722366482869645213696 : ℚ) / 1000000)
      = 4722366482869645 := by
    unfold roundTiesEven
    have hfl : ⌊(4722366482869645213696 : ℚ) / 1000000⌋ = 4722366482869645 := by
      rw [Int.floor_eq_iff]
      constructor
      · norm_num
      · norm_num
    rw [hfl]
    norm_num
  rw [hround]
  rw [zpow_neg]
  norm_num

/-- Adding the double for one nanosecond to `1.5e12` ms is absorbed: the
increment is far below the ulp (`2^-12` ms) of the sum's binade, so the
rounded sum is exactly `1.5e12`. -/
theorem roundDouble_absorbed :
    roundDouble ((1500000000000 : ℚ) + 4722366482869645 / 4722366482869645213696)
      = 1500000000000 := by
  have hlog : Int.log 2 ((1500000000000 : ℚ) + 4722366482869645 / 4722366482869645213696)
      = 40 :=
    int_log_eq_of _ _ (by norm_num) (by norm_num) (by norm_num)
  rw [roundDouble_eval_pos _ 40 (by norm_num) hlog]
  have hexp : ((40 : ℤ) - 52) = -12 := by norm_num
  rw [hexp]
  have harg : ((1500000000000 : ℚ) + 4722366482869645 / 4722366482869645213696)
        / 2 ^ ((-12 : ℤ))
      = 6144000000000000 + 4722366482869645 / 1152921504606846976 := by
    rw [zpow_neg]
    norm_num
  rw [harg]
  have hround : roundTiesEven ((6144000000000000 : ℚ)
      + 4722366482869645 / 1152921504606846976) = 6144000000000000 := by
    unfold roundTiesEven
    have hfl : ⌊(6144000000000000 : ℚ) + 4722366482869645 / 1152921504606846976⌋
        = 6144000000000000 := by
      rw [Int.floor_eq_iff]
      constructor
      · norm_num
      · norm_num
    rw [hfl]
    norm_num
  rw [hround]
  rw [zpow_neg]
  norm_num

theorem toTimestampFl_tsV (t : Timestamp) :
    _toTimestampFl (JSVal.tsV t)
      = (match Timestamp.fromMillisFlE t.toMillisFl with
         | Except.ok t2 => Except.ok t2
         | Except.error _ => Except.error ErrKind.illegalArgument) := rfl

/-- Counterexample to claim C4 as stated: `_toTimestamp` does not pass a
storage-native timestamp through — it converts via `toMillis` and
`fromMillis` (lines 146, 151), and the double-precision millisecond count
cannot carry sub-millisecond nanoseconds.  At a modern epoch the ulp of
the millisecond value is `2^-12` ms (about 244 ns), so the timestamp
`(1500000000 s, 1 ns)` maps to exactly `1.5e12` ms and comes back with a
nanosecond component of zero. -/
theorem c4_counterexample :
    _toTimestampFl (JSVal.tsV (Timestamp.mk 1500000000 1))
        = Except.ok (Timestamp.mk 1500000000 0)
    ∧ Timestamp.mk 1500000000 0 ≠ Timestamp.mk 1500000000 1 := by
  constructor
  · have hms : Timestamp.toMillisFl (Timestamp.mk 1500000000 1) = 1500000000000 := by
      unfold Timestamp.toMillisFl
      simp only
      have c1 : ((1500000000 : ℤ) : ℚ) * 1000 = 1500000000000 := by norm_num
      have c2 : ((1 : ℤ) : ℚ) / 1000000 = 1 / 1000000 := by norm_num
      rw [c1, c2, roundDouble_one5e12, roundDouble_nano, roundDouble_absorbed]
    have hfrom : Timestamp.fromMillisFlE (1500000000000 : ℚ)
        = Except.ok (Timestamp.mk 1500000000 0) := by
      unfold Timestamp.fromMillisFlE
      have d1 : (1500000000000 : ℚ) / 1000 = 1500000000 := by norm_num
      have d3 : ⌊(1500000000 : ℚ)⌋ = 1500000000 := by norm_num
      rw [d1, roundDouble_one5e9, d3]
      have d4 : ((1500000000 : ℤ) : ℚ) * 1000 = 1500000000000 := by norm_num
      rw [d4, roundDouble_one5e12]
      have d5 : (1500000000000 : ℚ) - 1500000000000 = 0 := by norm_num
      rw [d5, roundDouble_zero]
      have d6 : (0 : ℚ) * 1000000 = 0 := by norm_num
      rw [d6, roundDouble_zero]
      unfold Timestamp.mkE
      rw [if_pos]
      · simp only [Rat.intCast_num]
        norm_num
      · refine ⟨Rat.intCast_den _, by norm_num, by norm_num, by norm_num⟩
    rw [toTimestampFl_tsV, hms, hfrom]
  · intro h
    exact absurd (congrArg Timestamp.nanoseconds h) (by norm_num)

/-- Claim C4 (amended): for every valid storage-native timestamp within
the representable date range whose nanosecond component is a whole number
of milliseconds, `_toTimestamp` returns a timestamp equal to the input —
every intermediate double value is an integer below `2^53` and therefore
exact.  A sub-millisecond nanosecond component is not preserved in
general (see the counterexample). -/
theorem c4_wholems_passthrough (t : Timestamp) (hval : t.valid)
    (hwhole : (1000000 : ℤ) ∣ t.nanoseconds)
    (hrange : |t.seconds| ≤ 8640000000000) :
    _toTimestampFl (JSVal.tsV t) = Except.ok t := by
  obtain ⟨s, n⟩ := t
  obtain ⟨hn0, hn1⟩ := hval
  obtain ⟨k, hk⟩ := hwhole
  simp only at hn0 hn1 hk hrange
  have hk0 : 0 ≤ k := by omega
  have hk1 : k ≤ 999 := by omega
  have habs_k : |k| < 2 ^ 53 := by
    rw [abs_of_nonneg hk0]
    omega
  have habs_prod : |s * 1000| < 2 ^ 53 := by
    have h1 : |s * 1000| = |s| * 1000 := by
      rw [abs_mul]
      norm_num
    have h2 := mul_le_mul_of_nonneg_right hrange (by norm_num : (0 : ℤ) ≤ 1000)
    rw [h1]
    omega
  have habs_sum : |s * 1000 + k| < 2 ^ 53 := by
    have h1 := abs_add (s * 1000) k
    have h2 : |s * 1000| = |s| * 1000 := by
      rw [abs_mul]
      norm_num
    have h3 := mul_le_mul_of_nonneg_right hrange (by norm_num : (0 : ℤ) ≤ 1000)
    rw [h2] at h1
    have h4 : |k| ≤ 999 := by
      rw [abs_of_nonneg hk0]
      exact hk1
    omega
  have habs_nanos : |k * 1000000| < 2 ^ 53 := by
    have h1 : 0 ≤ k * 1000000 := by positivity
    rw [abs_of_nonneg h1]
    omega
  have hprod : roundDouble ((s : ℚ) * 1000) = ((s * 1000 : ℤ) : ℚ) := by
    have h1 : ((s : ℚ) * 1000) = ((s * 1000 : ℤ) : ℚ) := by
      push_cast
      ring
    rw [h1, roundDouble_intCast (s * 1000) habs_prod]
  have hquot : roundDouble ((n : ℚ) / 1000000) = (k : ℚ) := by
    have h1 : (n : ℚ) / 1000000 = (k : ℚ) := by
      rw [hk]
      push_cast
      field_simp
    rw [h1, roundDouble_intCast k habs_k]
  have hms : Timestamp.toMillisFl ⟨s, n⟩ = ((s * 1000 + k : ℤ) : ℚ) := by
    unfold Timestamp.toMillisFl
    simp only
    rw [hprod, hquot]
    have h1 : ((s * 1000 : ℤ) : ℚ) + (k : ℚ) = ((s * 1000 + k : ℤ) : ℚ) := by
      push_cast
      ring
    rw [h1, roundDouble_intCast (s * 1000 + k) habs_sum]
  have hfloor : ⌊roundDouble (((s * 1000 + k : ℤ) : ℚ) / 1000)⌋ = s :=
    floor_roundDouble_div1000 s k hk0 (by omega) hrange
  have hfrom : Timestamp.fromMillisFlE ((s * 1000 + k : ℤ) : ℚ) = Except.ok ⟨s, n⟩ := by
    unfold Timestamp.fromMillisFlE
    rw [hfloor, hprod]
    have hsub : ((s * 1000 + k : ℤ) : ℚ) - ((s * 1000 : ℤ) : ℚ) = (k : ℚ) := by
      push_cast
      ring
    rw [hsub, roundDouble_intCast k habs_k]
    have hmul : (k : ℚ) * 1000000 = ((k * 1000000 : ℤ) : ℚ) := by
      push_cast
      ring
    rw [hmul, roundDouble_intCast (k * 1000000) habs_nanos]
    unfold Timestamp.mkE
    rw [if_pos]
    · simp only [Rat.intCast_num]
      have : k * 1000000 = n := by omega
      rw [this]
    · refine ⟨Rat.intCast_den _, Rat.intCast_den _, ?_, ?_⟩
      · have : (0 : ℤ) ≤ k * 1000000 := by positivity
        exact_mod_cast this
      · have : k * 1000000 ≤ (999999999 : ℤ) := by omega
        exact_mod_cast this
  unfold _toTimestampFl
  simp only [hms, hfrom]

theorem c4_wholems_witness :
    _toTimestampFl (JSVal.tsV (Timestamp.mk 1500000000 2000000))
        = Except.ok (Timestamp.mk 1500000000 2000000) :=
  c4_wholems_passthrough (Timestamp.mk 1500000000 2000000)
    (by constructor <;> decide) (by decide) (by decide)


/-- Claim C3: for every Instant `t` (a valid moment, i.e. an integral
epoch-millisecond count within the ECMAScript date range), converting `t`
to a storage-native timestamp with `_toTimestamp` and back with `_toMoment`
yields `t` again.  Moments carry exactly millisecond precision, so the round
trip being the identity is the claim's "lossless at millisecond
granularity". -/
theorem c3_instant_roundtrip (m : ℤ) (h : |m| ≤ 8640000000000000) :
    (_toTimestamp (JSVal.mom m)).bind (fun t => _toMoment (JSVal.tsV t))
      = Except.ok (JSVal.mom m) := by
  have h1 := Timestamp.fromMillisE_intCast m
  have h2 := Timestamp.toMillis_fromMillisInt m
  have h3 := momentUtcQ_intCast m h
  unfold _toTimestamp _toMoment
  simp [h1, h2, h3, _isTimestampLike, JSVal.truthy, Except.bind, Except.map]

theorem c3_witness :
    |(1234567 : ℤ)| ≤ 8640000000000000 ∧
      (_toTimestamp (JSVal.mom 1234567)).bind (fun t => _toMoment (JSVal.tsV t))
        = Except.ok (JSVal.mom 1234567) :=
  ⟨by decide, c3_instant_roundtrip 1234567 (by decide)⟩

/-- Claim C5: for every pair of numbers `s` and `n`, applying `_toMoment` to
the storage-native-timestamp-shaped plain object with `_seconds = s` and
`_nanoseconds = n` produces the same result (value or thrown error) as first
constructing a real `Timestamp` from `(s, n)` and then applying `_toMoment`
to it. -/
theorem c5_timestamp_shaped_object (s n : ℚ) :
    _toMoment (JSVal.obj [("_seconds", JSVal.num s), ("_nanoseconds", JSVal.num n)])
      = (Timestamp.mkE s n).bind (fun t => _toMoment (JSVal.tsV t)) := by
  cases hmk : Timestamp.mkE s n with
  | ok t =>
    unfold _toMoment _fromTimestampDocument
    simp [JSVal.truthy, _isTimestampLike, objGet, fieldNum, hmk, Except.bind, Except.map]
    rfl
  | error e =>
    unfold _toMoment _fromTimestampDocument
    simp [JSVal.truthy, _isTimestampLike, objGet, fieldNum, hmk, Except.bind, Except.map]
    rfl

/-- `value !== undefined` as a Boolean test on a JavaScript value. -/
def JSVal.isUndef : JSVal → Bool
  | JSVal.undef => true
  | _ => false

/-- `typeof v === 'object'` (note `typeof null === 'object'` in JavaScript). -/
def jsTypeofIsObject : JSVal → Bool
  | JSVal.null => true
  | JSVal.arr _ => true
  | JSVal.obj _ => true
  | JSVal.tsV _ => true
  | JSVal.mom _ => true
  | JSVal.dateV _ => true
  | JSVal.enumInst _ _ => true
  | JSVal.periodV _ _ _ => true
  | _ => false

/-- A converter function as `_mapProps` invokes it:
`map({ key, from, getterPrefix, enumeration, to })`.  Custom converters in
this model receive the key, the source object, the getter prefix and the
destination object (the `enumeration` member is `undefined` whenever a
custom function is invoked, so it is omitted); the result is the converted
value or a thrown error. -/
def ConvFn : Type :=
  String → List (String × JSVal) → String → List (String × JSVal) → Except ErrKind JSVal

/-- Model of an `enumify` enumeration class: its class name, its static
`enumValues` array, its per-member static properties (enumify defines one
static own property per member, holding the member instance), its `of`
lookup function (defined by the concrete enumeration, e.g. `DayOfWeek.of`,
throwing when no member matches), and `statics`: the class's remaining
observable properties under a `[]` read — further static methods such as
`of` or `initEnum` (as opaque function values), its `prototype` object,
and anything inherited from `Function.prototype`/`Object.prototype`
(`call`, `toString`, the `length` arity number, ...). -/
structure Enumeration where
  ename : String
  enumValues : List JSVal
  members : List (String × JSVal)
  ofFn : JSVal → Except ErrKind JSVal
  statics : List (String × JSVal)

/-- Property read `E[key]` on an enumeration class: a member, the class's
`name`, its `enumValues`, or one of the other observable properties listed
in `statics`. -/
def Enumeration.getProp (e : Enumeration) (k : String) : Option JSVal :=
  match objGet k e.members with
  | some v => some v
  | none =>
    if k = "name" then some (JSVal.str e.ename)
    else if k = "enumValues" then some (JSVal.arr e.enumValues)
    else objGet k e.statics

/-- `Array.isArray(E.enumValues) && typeof E.enumValues[0] === 'object'`
for an enumeration class: the static list is always an array, so the test
is that its first element exists and is an object (an empty list fails
because `typeof undefined` is not `'object'`). -/
def enumHasDescr (e : Enumeration) : Bool :=
  match e.enumValues with
  | [] => false
  | x :: _ => jsTypeofIsObject x

/-- The same `enumValues` test applied to a plain value: only a plain
object with an `enumValues` field holding a non-empty array whose first
element is an object passes (opaque function markers carry no modelled
fields). -/
def valHasEnumDescr (v : JSVal) : Bool :=
  match v with
  | JSVal.obj fs =>
    (match objGet "enumValues" fs with
     | some (JSVal.arr (x :: _)) => jsTypeofIsObject x
     | _ => false)
  | _ => false

/-- The same `enumValues` test applied to a function object through its
observable property list. -/
def fnHasEnumDescr (props : List (String × JSVal)) : Bool :=
  match objGet "enumValues" props with
  | some (JSVal.arr (x :: _)) => jsTypeofIsObject x
  | _ => false

/-- An entry of a converters table (the per-field mapping form of the
`mappers` argument).  Function-valued entries are represented with `fnE`
(carrying the JavaScript function's `name`), enumeration classes with
`enumClassE`; `valE` holds entries that are neither — including, when
relevant, properties the table object inherits from `Object.prototype`
(`toString`, `hasOwnProperty`, ...) as opaque function values, since a
`mappers[key]` read also sees inherited properties. -/
inductive MEntry where
  | fnE (nm : String) (f : ConvFn)
  | enumClassE (e : Enumeration)
  | valE (v : JSVal)

/-- The `mappers` argument of `_mapProps`: absent, a single converter
function together with `props`, the function object's observable
properties under a `[]` read (its `name` string, its `length` arity
number, inherited `Function.prototype`/`Object.prototype` methods as
opaque function values, ...), an enumeration class, or a table whose
entry list is likewise its complete observable property list. -/
inductive Mappers where
  | undefM
  | fnM (props : List (String × JSVal)) (f : ConvFn)
  | enumClassM (e : Enumeration)
  | tableM (entries : List (String × MEntry))

def lookupEntry (k : String) : List (String × MEntry) → Option MEntry
  | [] => none
  | p :: rest => if p.1 = k then some p.2 else lookupEntry k rest

/-- The `enumValues` test applied to a converters table through its entry
list (a table whose own `enumValues` entry holds a non-empty array of
objects is itself treated as an enumeration by line 335). -/
def tableHasEnumDescr (es : List (String × MEntry)) : Bool :=
  match lookupEntry "enumValues" es with
  | some (MEntry.valE (JSVal.arr (x :: _))) => jsTypeofIsObject x
  | _ => false

/-- JavaScript truthiness of a table entry (functions and classes are
always truthy). -/
def entryTruthy : MEntry → Bool
  | MEntry.fnE _ _ => true
  | MEntry.enumClassE _ => true
  | MEntry.valE v => v.truthy

/-- The possible values of the local `map` after line 332
(`let map = (mappers && mappers[key]) || mappers`). -/
inductive MapArgVal where
  | undefA
  | fnA (props : List (String × JSVal)) (f : ConvFn)
  | enumClassA (e : Enumeration)
  | tableA (entries : List (String × MEntry))
  | valA (v : JSVal)

/-- A function entry selected from a table becomes the `map` value; it is
modelled as exposing its `name` property and no descriptor-exposing
properties (converter functions stored in tables are plain converters). -/
def entryToArg : MEntry → MapArgVal
  | MEntry.fnE nm f => MapArgVal.fnA [("name", JSVal.str nm)] f
  | MEntry.enumClassE e => MapArgVal.enumClassA e
  | MEntry.valE v => MapArgVal.valA v

/-- `(mappers && mappers[key]) || mappers` (line 332).  The property
lookup `mappers[key]` is a full JavaScript property access and may hit any
observable own or inherited property of the converters argument: a
table's entry, any property in a function's `props` list, any static or
inherited property of an enumeration class.  A falsy lookup result (or a
missing property) falls back to the whole `mappers` argument. -/
def mapArgOf (ms : Mappers) (k : String) : MapArgVal :=
  match ms with
  | Mappers.undefM => MapArgVal.undefA
  | Mappers.fnM props f =>
    (match objGet k props with
     | some v => if v.truthy then MapArgVal.valA v else MapArgVal.fnA props f
     | none => MapArgVal.fnA props f)
  | Mappers.enumClassM e =>
    (match e.getProp k with
     | some v => if v.truthy then MapArgVal.valA v else MapArgVal.enumClassA e
     | none => MapArgVal.enumClassA e)
  | Mappers.tableM es =>
    (match lookupEntry k es with
     | some en => if entryTruthy en then entryToArg en else MapArgVal.tableA es
     | none => MapArgVal.tableA es)

/-- The converter selected for one key, as a tagged value.  `enumConv` is
the `_toEnumMapper` wrapper around the class's `of`; `enumLikeConv`,
`enumLikeFn` and `enumLikeTable` are the enum branch taken for a plain
value, a function or a converter table that exposes `enumValues`: the
wrapper is built around that object's `of` member, whose application is
outside this model (in the usual case of no callable `of`, every element
application raises a `TypeError`); `classFn` is an enumeration class
without usable descriptors used directly as the converter function
(calling a class without `new` raises a `TypeError`); `markerFn` is an
opaque function value used as the converter, whose body is outside the
model; `noOp` is the identity mapper. -/
inductive Resolved where
  | enumConv (e : Enumeration)
  | enumLikeConv (v : JSVal)
  | enumLikeFn (props : List (String × JSVal))
  | enumLikeTable (es : List (String × MEntry))
  | customFn (f : ConvFn)
  | classFn (e : Enumeration)
  | markerFn (nm : String)
  | noOp

/-- Lines 332-342 of `_mapProps`: compute `map`, take the enum branch when
`map` exposes enumeration-value descriptors
(`Array.isArray(map?.enumValues) && typeof map?.enumValues[0] === 'object'`),
otherwise use `map` itself when it is a function (`typeof map ===
'function'` holds for plain functions, classes and opaque function
values), otherwise the no-op mapper. -/
def resolveMapper (ms : Mappers) (k : String) : Resolved :=
  match mapArgOf ms k with
  | MapArgVal.enumClassA e => if enumHasDescr e then Resolved.enumConv e else Resolved.classFn e
  | MapArgVal.valA v =>
    if valHasEnumDescr v then Resolved.enumLikeConv v
    else
      (match v with
       | JSVal.funcV nm => Resolved.markerFn nm
       | _ => Resolved.noOp)
  | MapArgVal.fnA props f =>
    if fnHasEnumDescr props then Resolved.enumLikeFn props else Resolved.customFn f
  | MapArgVal.undefA => Resolved.noOp
  | MapArgVal.tableA es =>
    if tableHasEnumDescr es then Resolved.enumLikeTable es else Resolved.noOp

def listMapM (f : JSVal → Except ErrKind JSVal) : List JSVal → Except ErrKind (List JSVal)
  | [] => Except.ok []
  | x :: xs => do
    let y ← f x
    let ys ← listMapM f xs
    pure (y :: ys)

/-- The `_getMapper` wrapper (lines 40-44): read `from[getterPrefix + key]`;
`undefined` propagates unchanged; an array is mapped element-wise into a
fresh array; otherwise the underlying mapper is applied to the value. -/
def wrapMapper (mapper : JSVal → Except ErrKind JSVal) (k : String)
    (src : List (String × JSVal)) (gp : String) : Except ErrKind JSVal :=
  match objGet (gp ++ k) src with
  | none => Except.ok JSVal.undef
  | some JSVal.undef => Except.ok JSVal.undef
  | some (JSVal.arr xs) => (listMapM mapper xs).map JSVal.arr
  | some v => mapper v

/-- Invocation of the resolved converter with
`{ key, from, getterPrefix, enumeration, to }` (line 344). -/
def invokeResolved (r : Resolved) (k : String) (src : List (String × JSVal))
    (gp : String) (dst : List (String × JSVal)) : Except ErrKind JSVal :=
  match r with
  | Resolved.enumConv e => wrapMapper e.ofFn k src gp
  | Resolved.enumLikeConv _ => wrapMapper (fun _ => Except.error ErrKind.typeError) k src gp
  | Resolved.enumLikeFn _ => wrapMapper (fun _ => Except.error ErrKind.typeError) k src gp
  | Resolved.enumLikeTable _ => wrapMapper (fun _ => Except.error ErrKind.typeError) k src gp
  | Resolved.customFn f => f k src gp dst
  | Resolved.classFn _ => Except.error ErrKind.typeError
  | Resolved.markerFn _ => Except.error ErrKind.typeError
  | Resolved.noOp => wrapMapper (fun v => Except.ok v) k src gp

/-- The `keys` argument of `_mapProps`: absent, a single key, or a key
list. -/
inductive KeysArg where
  | undefK
  | oneK (k : String)
  | listK (ks : List String)

/-- The destructured argument object of `_mapProps`.  `none` models an
absent (or otherwise falsy) argument, which the source replaces by its
default. -/
structure MapPropsArgs where
  keys : KeysArg
  srcO : Option (List (String × JSVal))
  dstO : Option (List (String × JSVal))
  setPfxO : Option String
  getPfxO : Option String
  mappers : Mappers

/-- The body of the `keys.reduce` callback (lines 331-348) as one step of a
fold over the destination state: resolve the key's converter, invoke it,
and assign `to[setterPrefix + key]` exactly when the result is not
`undefined`.  (In the source the reduce accumulator is the very `to`
object being mutated, so the accumulator and the mutated state coincide.) -/
def _mapPropsStep (sp gp : String) (ms : Mappers) (src : List (String × JSVal))
    (dst : List (String × JSVal)) (k : String) : Except ErrKind (List (String × JSVal)) :=
  match invokeResolved (resolveMapper ms k) k src gp dst with
  | Except.error e => Except.error e
  | Except.ok v => Except.ok (if v.isUndef then dst else objSet dst (sp ++ k) v)

/-- `_mapProps` (lines 315-349): apply the defaults, normalise `keys` to a
list (`Object.keys(from)` when absent), and run the per-key reduce. -/
def _mapProps (a : MapPropsArgs) : Except ErrKind (List (String × JSVal)) :=
  let src := a.srcO.getD []
  let dst := a.dstO.getD []
  let sp := a.setPfxO.getD ""
  let gp := a.getPfxO.getD ""
  let ks :=
    match a.keys with
    | KeysArg.undefK => src.map Prod.fst
    | KeysArg.oneK k => [k]
    | KeysArg.listK l => l
  ks.foldlM (fun dst k => _mapPropsStep sp gp a.mappers src dst k) dst

/-- The per-key processing of `_mapProps` written as the claim's explicit
recursion: process the keys in order; for each key resolve its converter,
invoke it, set the destination field `setterPrefix + key` exactly when the
result is not absent (an absent result leaves the destination untouched);
at the end the destination is returned. -/
def mapPropsSpecRec (sp gp : String) (ms : Mappers) (src : List (String × JSVal)) :
    List String → List (String × JSVal) → Except ErrKind (List (String × JSVal))
  | [], dst => Except.ok dst
  | k :: ks, dst =>
    match invokeResolved (resolveMapper ms k) k src gp dst with
    | Except.error e => Except.error e
    | Except.ok v =>
      mapPropsSpecRec sp gp ms src ks (if v.isUndef then dst else objSet dst (sp ++ k) v)

/-- The same processing exposing the destination state reached when an
error is thrown (in the JavaScript original the caller's `to` aliases this
state, so it is observable even when `_mapProps` throws). -/
def mapPropsRun (sp gp : String) (ms : Mappers) (src : List (String × JSVal)) :
    List String → List (String × JSVal) → (List (String × JSVal)) × Option ErrKind
  | [], dst => (dst, none)
  | k :: ks, dst =>
    match invokeResolved (resolveMapper ms k) k src gp dst with
    | Except.error e => (dst, some e)
    | Except.ok v =>
      mapPropsRun sp gp ms src ks (if v.isUndef then dst else objSet dst (sp ++ k) v)

theorem exceptBind_ok {α β : Type} (x : α) (f : α → Except ErrKind β) :
    (Except.ok x >>= f) = f x := rfl

theorem exceptBind_error {α β : Type} (e : ErrKind) (f : α → Except ErrKind β) :
    ((Except.error e : Except ErrKind α) >>= f) = Except.error e := rfl

theorem mapPropsSpecRec_nil (sp gp : String) (ms : Mappers) (src dst : List (String × JSVal)) :
    mapPropsSpecRec sp gp ms src [] dst = Except.ok dst := rfl

theorem mapPropsSpecRec_cons (sp gp : String) (ms : Mappers) (src dst : List (String × JSVal))
    (k : String) (ks : List String) :
    mapPropsSpecRec sp gp ms src (k :: ks) dst
      = (match invokeResolved (resolveMapper ms k) k src gp dst with
         | Except.error e => Except.error e
         | Except.ok v =>
           mapPropsSpecRec sp gp ms src ks (if v.isUndef then dst else objSet dst (sp ++ k) v)) :=
  rfl

theorem mapPropsRun_nil (sp gp : String) (ms : Mappers) (src dst : List (String × JSVal)) :
    mapPropsRun sp gp ms src [] dst = (dst, none) := rfl

theorem mapPropsRun_cons (sp gp : String) (ms : Mappers) (src dst : List (String × JSVal))
    (k : String) (ks : List String) :
    mapPropsRun sp gp ms src (k :: ks) dst
      = (match invokeResolved (resolveMapper ms k) k src gp dst with
         | Except.error e => (dst, some e)
         | Except.ok v =>
           mapPropsRun sp gp ms src ks (if v.isUndef then dst else objSet dst (sp ++ k) v)) :=
  rfl

theorem objGet_objSet_ne (o : List (String × JSVal)) (k n : String) (v : JSVal)
    (h : k ≠ n) : objGet n (objSet o k v) = objGet n o := by
  induction o with
  | nil =>
    simp only [objSet, objGet]
    rw [if_neg h]
  | cons p rest ih =>
    by_cases hpk : p.1 = k
    · simp only [objSet, if_pos hpk, objGet, hpk]
      rw [if_neg h, if_neg h]
    · simp only [objSet, if_neg hpk, objGet]
      by_cases hpn : p.1 = n
      · rw [if_pos hpn, if_pos hpn]
      · rw [if_neg hpn, if_neg hpn]
        exact ih

theorem mapPropsStep_eq (sp gp : String) (ms : Mappers) (src dst : List (String × JSVal))
    (k : String) :
    _mapPropsStep sp gp ms src dst k
      = (match invokeResolved (resolveMapper ms k) k src gp dst with
         | Except.error e => Except.error e
         | Except.ok v => Except.ok (if v.isUndef then dst else objSet dst (sp ++ k) v)) :=
  rfl

theorem mapProps_foldlM_eq (sp gp : String) (ms : Mappers) (src : List (String × JSVal)) :
    ∀ (ks : List String) (dst : List (String × JSVal)),
      List.foldlM (fun dst k => _mapPropsStep sp gp ms src dst k) dst ks
        = mapPropsSpecRec sp gp ms src ks dst := by
  intro ks
  induction ks with
  | nil => intro dst; rfl
  | cons k ks ih =>
    intro dst
    rw [List.foldlM_cons, mapPropsSpecRec_cons]
    cases h : invokeResolved (resolveMapper ms k) k src gp dst with
    | error e =>
      have hstep : _mapPropsStep sp gp ms src dst k = Except.error e := by
        rw [mapPropsStep_eq, h]
      rw [hstep, exceptBind_error]
    | ok v =>
      have hstep : _mapPropsStep sp gp ms src dst k
          = Except.ok (if v.isUndef then dst else objSet dst (sp ++ k) v) := by
        rw [mapPropsStep_eq, h]
      rw [hstep, exceptBind_ok]
      exact ih _

theorem mapPropsSpecRec_eq_run (sp gp : String) (ms : Mappers) (src : List (String × JSVal)) :
    ∀ (ks : List String) (dst : List (String × JSVal)),
      mapPropsSpecRec sp gp ms src ks dst
        = (match mapPropsRun sp gp ms src ks dst with
           | (o, none) => Except.ok o
           | (_, some e) => Except.error e) := by
  intro ks
  induction ks with
  | nil => intro dst; rfl
  | cons k ks ih =>
    intro dst
    rw [mapPropsSpecRec_cons, mapPropsRun_cons]
    cases h : invokeResolved (resolveMapper ms k) k src gp dst with
    | error e => rfl
    | ok v => exact ih _

theorem mapPropsSpecRec_untouched (sp gp : String) (ms : Mappers) (src : List (String × JSVal)) :
    ∀ (ks : List String) (dst res : List (String × JSVal)) (n : String),
      mapPropsSpecRec sp gp ms src ks dst = Except.ok res →
      (∀ k ∈ ks, sp ++ k ≠ n) →
      objGet n res = objGet n dst := by
  intro ks
  induction ks with
  | nil =>
    intro dst res n h _
    rw [mapPropsSpecRec_nil] at h
    cases h
    rfl
  | cons k ks ih =>
    intro dst res n h hns
    rw [mapPropsSpecRec_cons] at h
    cases hinv : invokeResolved (resolveMapper ms k) k src gp dst with
    | error e => rw [hinv] at h; cases h
    | ok v =>
      rw [hinv] at h
      have hrest := ih _ res n h (fun k' hk' => hns k' (List.mem_cons_of_mem _ hk'))
      rw [hrest]
      by_cases hu : v.isUndef
      · simp [hu]
      · simp only [hu, Bool.false_eq_true, if_false]
        exact objGet_objSet_ne dst (sp ++ k) n v (hns k (List.mem_cons_self k ks))

theorem mapPropsRun_append (sp gp : String) (ms : Mappers) (src : List (String × JSVal)) :
    ∀ (ks₁ ks₂ : List String) (dst t₁ : List (String × JSVal)),
      mapPropsRun sp gp ms src ks₁ dst = (t₁, none) →
      mapPropsRun sp gp ms src (ks₁ ++ ks₂) dst = mapPropsRun sp gp ms src ks₂ t₁ := by
  intro ks₁
  induction ks₁ with
  | nil =>
    intro ks₂ dst t₁ h
    rw [mapPropsRun_nil] at h
    cases h
    rfl
  | cons k ks ih =>
    intro ks₂ dst t₁ h
    rw [mapPropsRun_cons] at h
    rw [List.cons_append, mapPropsRun_cons]
    cases hinv : invokeResolved (resolveMapper ms k) k src gp dst with
    | error e => rw [hinv] at h; cases h
    | ok v =>
      rw [hinv] at h
      exact ih ks₂ _ t₁ h

/-- Claim C1: for every key list, source, destination and prefixes,
`_mapProps` processes the keys in order, resolving and invoking each key's
converter and setting `to[setterPrefix + key]` exactly when the result is
not absent (the explicit recursion `mapPropsSpecRec` states precisely
this); the call returns the destination object, and destination fields not
named `setterPrefix + key` for any processed key keep the value they had in
the destination that was passed in. -/
theorem c1_mapProps_in_order (ks : List String) (src dst : List (String × JSVal))
    (sp gp : String) (ms : Mappers) :
    _mapProps ⟨KeysArg.listK ks, some src, some dst, some sp, some gp, ms⟩
        = mapPropsSpecRec sp gp ms src ks dst
    ∧ ∀ (n : String) (res : List (String × JSVal)),
        _mapProps ⟨KeysArg.listK ks, some src, some dst, some sp, some gp, ms⟩
            = Except.ok res →
        (∀ k ∈ ks, sp ++ k ≠ n) →
        objGet n res = objGet n dst := by
  have heq : _mapProps ⟨KeysArg.listK ks, some src, some dst, some sp, some gp, ms⟩
      = mapPropsSpecRec sp gp ms src ks dst := by
    unfold _mapProps
    exact mapProps_foldlM_eq sp gp ms src ks dst
  refine ⟨heq, ?_⟩
  intro n res hok hns
  rw [heq] at hok
  exact mapPropsSpecRec_untouched sp gp ms src ks dst res n hok hns

theorem c1_witness :
    objGet "z" [("z", JSVal.num 5), ("a", JSVal.num 1)] = objGet "z" [("z", JSVal.num 5)] :=
  (c1_mapProps_in_order ["a"] [("a", JSVal.num 1)] [("z", JSVal.num 5)] "" "" Mappers.undefM).2
    "z" [("z", JSVal.num 5), ("a", JSVal.num 1)] (by rfl) (by decide)

/-- Claim C2's resolution order exactly as the claim states it:
(a) if the converters argument is a mapping with an entry for the key that
exposes a non-empty list of enumeration-value descriptors, or the whole
converters argument exposes one, the enumeration converter for that class;
(b) otherwise, if the per-key entry or the whole converters argument is a
function, that function; (c) otherwise the identity converter. -/
def claimResolve (ms : Mappers) (k : String) : Resolved :=
  match ms with
  | Mappers.tableM es =>
    (match lookupEntry k es with
     | some (MEntry.enumClassE e) =>
       if enumHasDescr e then Resolved.enumConv e else Resolved.classFn e
     | some (MEntry.fnE _ f) => Resolved.customFn f
     | _ => Resolved.noOp)
  | Mappers.enumClassM e =>
    if enumHasDescr e then Resolved.enumConv e else Resolved.classFn e
  | Mappers.fnM _ f => Resolved.customFn f
  | Mappers.undefM => Resolved.noOp

/-- A DayOfWeek-like enumification used as a concrete input: a class named
"DayOfWeek" with one member, exposing a non-empty list of member-object
descriptors, an `of` static method, a `prototype` object and the arity
number 0 among its other observable properties. -/
def dayOfWeekE : Enumeration :=
  { ename := "DayOfWeek"
    enumValues := [JSVal.enumInst "MONDAY" 0]
    members := [("MONDAY", JSVal.enumInst "MONDAY" 0)]
    ofFn := fun v => Except.ok v
    statics := [("of", JSVal.funcV "of"), ("prototype", JSVal.obj []), ("length", JSVal.num 0)] }

/-- Counterexample to claim C2 as stated: with the whole converters
argument being an enumeration class that exposes descriptors, clause (a) of
the claim demands the enumeration converter for *every* key; but for the
key "name" the property lookup `mappers['name']` on the class yields its
class name (a truthy string), so the source resolves the identity
converter instead. -/
theorem c2_counterexample :
    resolveMapper (Mappers.enumClassM dayOfWeekE) "name" = Resolved.noOp
    ∧ claimResolve (Mappers.enumClassM dayOfWeekE) "name" = Resolved.enumConv dayOfWeekE
    ∧ Resolved.noOp ≠ Resolved.enumConv dayOfWeekE :=
  ⟨rfl, rfl, fun h => Resolved.noConfusion h⟩

/-- The resolution order as amended: the per-key lookup `converters[key]`
is a full JavaScript property access on the converters argument and may
hit any of its observable own or inherited properties — a mapping's entry,
but also any property of a function object (its `name` or `length`,
inherited `Function.prototype`/`Object.prototype` methods) and any static,
member or inherited property of an enumeration class (`name`,
`enumValues`, `of`, `prototype`, the members themselves).  The lookup
falls back to the whole converters argument when its result is falsy;
clause (a)'s enumeration-descriptor test and clause (b)'s function test
are then applied to the value so obtained, with (c) the identity converter
as the final fallback. -/
def amendedResolve (ms : Mappers) (k : String) : Resolved :=
  match ms with
  | Mappers.undefM => Resolved.noOp
  | Mappers.fnM props f =>
    (match objGet k props with
     | some v =>
       if v.truthy then
         (if valHasEnumDescr v then Resolved.enumLikeConv v
          else
            match v with
            | JSVal.funcV nm => Resolved.markerFn nm
            | _ => Resolved.noOp)
       else (if fnHasEnumDescr props then Resolved.enumLikeFn props else Resolved.customFn f)
     | none => if fnHasEnumDescr props then Resolved.enumLikeFn props else Resolved.customFn f)
  | Mappers.enumClassM e =>
    (match e.getProp k with
     | some v =>
       if v.truthy then
         (if valHasEnumDescr v then Resolved.enumLikeConv v
          else
            match v with
            | JSVal.funcV nm => Resolved.markerFn nm
            | _ => Resolved.noOp)
       else (if enumHasDescr e then Resolved.enumConv e else Resolved.classFn e)
     | none => if enumHasDescr e then Resolved.enumConv e else Resolved.classFn e)
  | Mappers.tableM es =>
    (match lookupEntry k es with
     | some (MEntry.enumClassE e) =>
       if enumHasDescr e then Resolved.enumConv e else Resolved.classFn e
     | some (MEntry.fnE _ f) => Resolved.customFn f
     | some (MEntry.valE v) =>
       if v.truthy then
         (if valHasEnumDescr v then Resolved.enumLikeConv v
          else
            match v with
            | JSVal.funcV nm => Resolved.markerFn nm
            | _ => Resolved.noOp)
       else (if tableHasEnumDescr es then Resolved.enumLikeTable es else Resolved.noOp)
     | none => if tableHasEnumDescr es then Resolved.enumLikeTable es else Resolved.noOp)

/-- Claim C2 (amended): for every converters argument and key, the
converter `_mapProps` resolves is exactly the one the amended resolution
order describes. -/
theorem c2_resolution_amended (ms : Mappers) (k : String) :
    resolveMapper ms k = amendedResolve ms k := by
  cases ms with
  | undefM => rfl
  | fnM props f =>
    simp only [resolveMapper, mapArgOf, amendedResolve]
    cases hp : objGet k props with
    | none => rfl
    | some v =>
      cases ht : v.truthy with
      | true => simp only [ht, if_true]
      | false => simp only [ht, Bool.false_eq_true, if_false]
  | enumClassM e =>
    simp only [resolveMapper, mapArgOf, amendedResolve]
    cases hp : e.getProp k with
    | none => rfl
    | some v =>
      cases ht : v.truthy with
      | true => simp only [ht, if_true]
      | false => simp only [ht, Bool.false_eq_true, if_false]
  | tableM es =>
    simp only [resolveMapper, mapArgOf, amendedResolve]
    cases hl : lookupEntry k es with
    | none => rfl
    | some en =>
      cases en with
      | fnE nm f =>
        simp only [entryTruthy, if_true, entryToArg]
        rfl
      | enumClassE e => rfl
      | valE v =>
        cases ht : v.truthy with
        | true => simp only [entryTruthy, ht, if_true, entryToArg]
        | false => simp only [entryTruthy, ht, Bool.false_eq_true, if_false]

/-- Claim C7: if every key before position `i` processes successfully and
the converter invoked for the key at position `i` (on the destination state
reached at that point) throws, then the whole run stops there: the
destination is left exactly in the state `t₁` produced by the keys before
position `i` (no rollback, and no key at or after position `i` sets
anything), and `_mapProps` propagates that error to its caller. -/
theorem c7_converter_throw_aborts (sp gp : String) (ms : Mappers)
    (src dst t₁ : List (String × JSVal)) (ks₁ ks₂ : List String) (k : String) (err : ErrKind)
    (h₁ : mapPropsRun sp gp ms src ks₁ dst = (t₁, none))
    (h₂ : invokeResolved (resolveMapper ms k) k src gp t₁ = Except.error err) :
    mapPropsRun sp gp ms src (ks₁ ++ k :: ks₂) dst = (t₁, some err)
    ∧ _mapProps ⟨KeysArg.listK (ks₁ ++ k :: ks₂), some src, some dst, some sp, some gp, ms⟩
        = Except.error err := by
  have hrun : mapPropsRun sp gp ms src (ks₁ ++ k :: ks₂) dst = (t₁, some err) := by
    rw [mapPropsRun_append sp gp ms src ks₁ (k :: ks₂) dst t₁ h₁, mapPropsRun_cons, h₂]
  refine ⟨hrun, ?_⟩
  have heq : _mapProps ⟨KeysArg.listK (ks₁ ++ k :: ks₂), some src, some dst, some sp, some gp, ms⟩
      = mapPropsSpecRec sp gp ms src (ks₁ ++ k :: ks₂) dst := by
    unfold _mapProps
    exact mapProps_foldlM_eq sp gp ms src _ dst
  rw [heq, mapPropsSpecRec_eq_run, hrun]

/-- A converters argument for the C7 witness: an anonymous custom converter
that succeeds on keys "a" and "c" but throws on key "b". -/
def c7msExample : Mappers :=
  Mappers.fnM [("name", JSVal.str ""), ("length", JSVal.num 4)]
    (fun k _ _ _ =>
      if k = "b" then Except.error ErrKind.illegalArgument else Except.ok (JSVal.str k))

theorem c7_witness :
    mapPropsRun "" "" c7msExample [] ["a", "b", "c"] [] = ([("a", JSVal.str "a")], some ErrKind.illegalArgument)
    ∧ _mapProps ⟨KeysArg.listK ["a", "b", "c"], some [], some [], some "", some "", c7msExample⟩
        = Except.error ErrKind.illegalArgument :=
  c7_converter_throw_aborts "" "" c7msExample [] [] [("a", JSVal.str "a")] ["a"] ["c"] "b"
    ErrKind.illegalArgument (by rfl) (by rfl)

/-- `_toTreeCustomizer` (lines 125-135): during the deep clone, `enumify`
members become their symbolic name, moments and dates become timestamps
from their epoch-millisecond value, and timestamps are kept. -/
def _toTreeCustomizer (v : JSVal) : Option JSVal :=
  match v with
  | JSVal.enumInst nm _ => some (JSVal.str nm)
  | JSVal.mom m => some (JSVal.tsV (Timestamp.fromMillisInt m))
  | JSVal.dateV m => some (JSVal.tsV (Timestamp.fromMillisInt m))
  | JSVal.tsV t => some (JSVal.tsV t)
  | _ => none

mutual
/-- `_toTree` (lines 256-258): `_.cloneDeepWith(entity, _toTreeCustomizer)`:
the customizer's replacement is used where it produces one; otherwise the
clone recurses into arrays, plain objects and period instances (lodash
preserves the prototype, so a cloned period is still a period carrying its
constructor name), and scalars are copied.  Function values nested in the
graph are kept by reference. -/
def _toTree (v : JSVal) : JSVal :=
  match _toTreeCustomizer v with
  | some w => w
  | none =>
    match v with
    | JSVal.arr xs => JSVal.arr (toTreeList xs)
    | JSVal.obj fs => JSVal.obj (toTreeFields fs)
    | JSVal.periodV nm b e => JSVal.periodV nm (_toTree b) (_toTree e)
    | x => x

def toTreeList : List JSVal → List JSVal
  | [] => []
  | x :: xs => _toTree x :: toTreeList xs

def toTreeFields : List (String × JSVal) → List (String × JSVal)
  | [] => []
  | p :: rest => (p.1, _toTree p.2) :: toTreeFields rest
end

/-- `_toPeriodDocument(period)` (lines 230-241): start from
`{ _type: period.constructor.name }`; when `period._begin` is truthy add
`_begin` as a storage timestamp; when `period._end` is truthy add `_end`;
a falsy field adds no key at all. -/
def _toPeriodDocument (nm : String) (b e : JSVal) : Except ErrKind JSVal := do
  let fs₁ := [("_type", JSVal.str nm)]
  let fs₂ ←
    if b.truthy then do
      let t ← _toTimestamp b
      pure (fs₁ ++ [("_begin", JSVal.tsV t)])
    else pure fs₁
  let fs₃ ←
    if e.truthy then do
      let t ← _toTimestamp e
      pure (fs₂ ++ [("_end", JSVal.tsV t)])
    else pure fs₂
  Except.ok (JSVal.obj fs₃)

/-- `it[k] !== undefined && typeof it[k] !== 'function'`: the filter of the
plain-object branch of `_toFirestoreDocument` (line 277). -/
def keepField (x : JSVal) : Bool :=
  match x with
  | JSVal.funcV _ => false
  | JSVal.undef => false
  | _ => true

mutual
/-- `_toFirestoreDocument(it)` (lines 267-283): a bare function throws
`IllegalArgumentError`; a timestamp passes through; an array maps
element-wise; a period becomes its period document; a plain object keeps
its non-function, non-undefined own fields, each recursively converted
(`null` also reaches this branch because `typeof null === 'object'`, and
`Object.keys(null)` throws a `TypeError`); scalars pass through.  Moments,
dates and enum members cannot reach this function from `_toDocument`
(`_toTree` has already replaced them) and are modelled as passing
through. -/
def _toFirestoreDocument (v : JSVal) : Except ErrKind JSVal :=
  match v with
  | JSVal.funcV _ => Except.error ErrKind.illegalArgument
  | JSVal.tsV t => Except.ok (JSVal.tsV t)
  | JSVal.arr xs =>
    (match toFsList xs with
     | Except.ok ys => Except.ok (JSVal.arr ys)
     | Except.error e => Except.error e)
  | JSVal.periodV nm b e => _toPeriodDocument nm b e
  | JSVal.obj fs =>
    (match toFsFields fs with
     | Except.ok gs => Except.ok (JSVal.obj gs)
     | Except.error e => Except.error e)
  | JSVal.null => Except.error ErrKind.typeError
  | x => Except.ok x

def toFsList : List JSVal → Except ErrKind (List JSVal)
  | [] => Except.ok []
  | x :: xs =>
    (match _toFirestoreDocument x, toFsList xs with
     | Except.ok y, Except.ok ys => Except.ok (y :: ys)
     | Except.error e, _ => Except.error e
     | _, Except.error e => Except.error e)

def toFsFields : List (String × JSVal) → Except ErrKind (List (String × JSVal))
  | [] => Except.ok []
  | p :: rest =>
    if keepField p.2 then
      (match _toFirestoreDocument p.2, toFsFields rest with
       | Except.ok y, Except.ok ys => Except.ok ((p.1, y) :: ys)
       | Except.error e, _ => Except.error e
       | _, Except.error e => Except.error e)
    else toFsFields rest
end

/-- `_toDocument(entity)` (lines 294-297):
`_toFirestoreDocument(_toTree(entity))`. -/
def _toDocument (entity : JSVal) : Except ErrKind JSVal :=
  _toFirestoreDocument (_toTree entity)

theorem toTimestamp_tsV_fromMillisInt (m : ℤ) :
    _toTimestamp (JSVal.tsV (Timestamp.fromMillisInt m))
      = Except.ok (Timestamp.fromMillisInt m) := by
  have h := Timestamp.fromMillisE_toMillis _ (Timestamp.fromMillisInt_valid m)
  unfold _toTimestamp
  simp [h]

/-- A period field as it arrives from the entity: a moment when set,
`undefined` when not. -/
def optMom : Option ℤ → JSVal
  | none => JSVal.undef
  | some m => JSVal.mom m

/-- The field list of the document `_toDocument` produces for a period:
always the `_type` tag; the `_begin` key exactly when `begin` is set; the
`_end` key exactly when `end` is set. -/
def periodDocFields (nm : String) (ob oe : Option ℤ) : List (String × JSVal) :=
  [("_type", JSVal.str nm)]
    ++ (match ob with
        | some m => [("_begin", JSVal.tsV (Timestamp.fromMillisInt m))]
        | none => [])
    ++ (match oe with
        | some m => [("_end", JSVal.tsV (Timestamp.fromMillisInt m))]
        | none => [])

theorem toDocument_period_eval (nm : String) (ob oe : Option ℤ) :
    _toDocument (JSVal.periodV nm (optMom ob) (optMom oe))
      = Except.ok (JSVal.obj (periodDocFields nm ob oe)) := by
  cases ob <;> cases oe <;>
    simp [_toDocument, _toTree, _toTreeCustomizer, _toFirestoreDocument, _toPeriodDocument,
      optMom, periodDocFields, JSVal.truthy, toTimestamp_tsV_fromMillisInt,
      Except.bind, Except.map, exceptBind_ok]

/-- Counterexample to claim C6 as stated: the claim names the serialized
keys `type`, `begin` and `end`, but the document `_toDocument` emits for a
period (here: variant "Period" with only `begin` set, at epoch 0) has no
`type` or `begin` key at all — the keys it carries are the
underscore-prefixed `_type` and `_begin`. -/
theorem c6_counterexample :
    _toDocument (JSVal.periodV "Period" (JSVal.mom 0) JSVal.undef)
      = Except.ok (JSVal.obj (periodDocFields "Period" (some 0) none))
    ∧ objGet "type" (periodDocFields "Period" (some 0) none) = none
    ∧ objGet "begin" (periodDocFields "Period" (some 0) none) = none
    ∧ objGet "_type" (periodDocFields "Period" (some 0) none) = some (JSVal.str "Period")
    ∧ objGet "_begin" (periodDocFields "Period" (some 0) none)
        = some (JSVal.tsV (Timestamp.fromMillisInt 0)) :=
  ⟨toDocument_period_eval "Period" (some 0) none, rfl, rfl, rfl, rfl⟩

/-- Claim C6 (amended: the keys of the serialized period carry the
internal underscore-prefixed names `_type`, `_begin`, `_end`): for every
period value, `_toDocument` serializes it as
`{ _type: <variant-name>, _begin?: <timestamp>, _end?: <timestamp> }`;
a period whose `end` is not set has no `_end` key at all, one whose
`begin` is not set has no `_begin` key, and a period with neither set
emits only `{ _type: <variant-name> }`. -/
theorem c6_period_document_shape (nm : String) (ob oe : Option ℤ) :
    _toDocument (JSVal.periodV nm (optMom ob) (optMom oe))
      = Except.ok (JSVal.obj (periodDocFields nm ob oe))
    ∧ (oe = none → objGet "_end" (periodDocFields nm ob oe) = none)
    ∧ (ob = none → objGet "_begin" (periodDocFields nm ob oe) = none)
    ∧ (ob = none → oe = none → periodDocFields nm ob oe = [("_type", JSVal.str nm)]) := by
  refine ⟨toDocument_period_eval nm ob oe, ?_, ?_, ?_⟩
  · intro he
    subst he
    cases ob <;> simp [periodDocFields, objGet]
  · intro hb
    subst hb
    cases oe <;> simp [periodDocFields, objGet]
  · intro hb he
    subst hb
    subst he
    simp [periodDocFields]

theorem c6_witness :
    objGet "_end" (periodDocFields "Period" (some 0) none) = none :=
  (c6_period_document_shape "Period" (some 0) none).2.1 rfl

/-- The reducer of `_getLargestArrayAmong`: keep the accumulator unless the
next array is defined and strictly longer (`accum.length >= next.length ?
accum : next`); an undefined accumulator is replaced by the next defined
array. -/
def largerOf (accum next : Option (List JSVal)) : Option (List JSVal) :=
  match accum, next with
  | some a, some n => if n.length ≤ a.length then some a else some n
  | some a, none => some a
  | none, some n => some n
  | none, none => none

/-- `_getLargestArrayAmong(...arrays)` (lines 370-381): reduce over the
given arrays (entries may be undefined), starting from `undefined`. -/
def _getLargestArrayAmong (arrays : List (Option (List JSVal))) : Option (List JSVal) :=
  arrays.foldl largerOf none

/-- `_growAllArraysToLargestAmong(...arrays)` (lines 390-402): nothing to
do for an empty argument list or when the largest array is undefined or
empty (`if (!length) return`); otherwise every defined array is resized to
the largest length (`it.length = length`, extension only, since `length`
is the maximum) and the new slots are filled with explicit `undefined`
(`it.fill(undefined, origLength)`). -/
def _growAllArraysToLargestAmong (arrays : List (Option (List JSVal))) :
    List (Option (List JSVal)) :=
  if arrays.length = 0 then arrays
  else
    match (_getLargestArrayAmong arrays).map List.length with
    | none => arrays
    | some L =>
      if L = 0 then arrays
      else
        arrays.map
          (fun it =>
            match it with
            | none => none
            | some a => some (a.take L ++ List.replicate (L - a.length) JSVal.undef))

/-- The length of a possibly-undefined array (`undefined` counts as 0). -/
def optLength : Option (List JSVal) → ℕ
  | none => 0
  | some a => a.length

/-- The largest length among a collection of possibly-undefined arrays. -/
def maxLenAmong (arrays : List (Option (List JSVal))) : ℕ :=
  arrays.foldl (fun m o => max m (optLength o)) 0

theorem optLength_largerOf (a b : Option (List JSVal)) :
    optLength (largerOf a b) = max (optLength a) (optLength b) := by
  cases a with
  | none => cases b <;> simp [largerOf, optLength]
  | some x =>
    cases b with
    | none => simp [largerOf, optLength]
    | some y =>
      by_cases h : y.length ≤ x.length
      · simp [largerOf, if_pos h, optLength]
        omega
      · simp [largerOf, if_neg h, optLength]
        omega

theorem getLargest_foldl_len (l : List (Option (List JSVal))) :
    ∀ acc, optLength (List.foldl largerOf acc l)
      = List.foldl (fun m o => max m (optLength o)) (optLength acc) l := by
  induction l with
  | nil => intro acc; rfl
  | cons x l ih =>
    intro acc
    rw [List.foldl_cons, List.foldl_cons, ih, optLength_largerOf]

theorem getLargest_len (arrays : List (Option (List JSVal))) :
    optLength (_getLargestArrayAmong arrays) = maxLenAmong arrays :=
  getLargest_foldl_len arrays none

theorem le_foldl_max (l : List (Option (List JSVal))) :
    ∀ init : ℕ, init ≤ l.foldl (fun m o => max m (optLength o)) init := by
  induction l with
  | nil => intro init; exact le_refl init
  | cons x l ih =>
    intro init
    rw [List.foldl_cons]
    exact le_trans (Nat.le_max_left init (optLength x)) (ih _)

theorem mem_le_foldl_max (l : List (Option (List JSVal))) :
    ∀ (o : Option (List JSVal)), o ∈ l →
      ∀ init : ℕ, optLength o ≤ l.foldl (fun m o => max m (optLength o)) init := by
  induction l with
  | nil => intro o ho; cases ho
  | cons x l ih =>
    intro o ho init
    rw [List.foldl_cons]
    cases List.mem_cons.mp ho with
    | inl h =>
      subst h
      exact le_trans (Nat.le_max_right init (optLength o)) (le_foldl_max l _)
    | inr h => exact ih o h _

theorem optLength_le_maxLen (arrays : List (Option (List JSVal)))
    (o : Option (List JSVal)) (ho : o ∈ arrays) : optLength o ≤ maxLenAmong arrays :=
  mem_le_foldl_max arrays o ho 0

/-- Claim C8: growing a collection of arrays to a common length makes each
defined array's length equal to the largest length among them, preserves
every existing element at its original index, pads the new positions with
explicit `undefined`, and never truncates. -/
theorem c8_grow_arrays (arrays : List (Option (List JSVal))) (i : ℕ) (a : List JSVal)
    (h : arrays[i]? = some (some a)) :
    ∃ a', (_growAllArraysToLargestAmong arrays)[i]? = some (some a')
      ∧ a'.length = maxLenAmong arrays
      ∧ a.length ≤ a'.length
      ∧ (∀ j, j < a.length → a'[j]? = a[j]?)
      ∧ (∀ j, a.length ≤ j → j < maxLenAmong arrays → a'[j]? = some JSVal.undef) := by
  have hmem : (some a) ∈ arrays := by
    obtain ⟨hi, he⟩ := List.getElem?_eq_some.mp h
    exact he ▸ List.getElem_mem hi
  have hle : a.length ≤ maxLenAmong arrays := optLength_le_maxLen arrays (some a) hmem
  by_cases harr : arrays.length = 0
  · rw [List.length_eq_zero] at harr
    subst harr
    cases h
  · unfold _growAllArraysToLargestAmong
    rw [if_neg harr]
    cases hg : _getLargestArrayAmong arrays with
    | none =>
      have hmax : maxLenAmong arrays = 0 := by
        rw [← getLargest_len, hg]
        rfl
      have ha0 : a.length = 0 := by omega
      refine ⟨a, ?_, by omega, le_refl _, fun j _ => rfl, fun j hj hj2 => by omega⟩
      simpa using h
    | some g =>
      have hmax : g.length = maxLenAmong arrays := by
        rw [← getLargest_len, hg]
        rfl
      by_cases hL : g.length = 0
      · have hmax0 : maxLenAmong arrays = 0 := by omega
        have ha0 : a.length = 0 := by omega
        simp only [Option.map]
        rw [if_pos hL]
        refine ⟨a, ?_, by omega, le_refl _, fun j _ => rfl, fun j hj hj2 => by omega⟩
        simpa using h
      · simp only [Option.map]
        rw [if_neg hL]
        set L := g.length with hLdef
        have hLa : a.length ≤ L := by omega
        refine ⟨a.take L ++ List.replicate (L - a.length) JSVal.undef, ?_, ?_, ?_, ?_, ?_⟩
        · rw [List.getElem?_map, h]
          rfl
        · rw [List.length_append, List.length_take, List.length_replicate]
          omega
        · rw [List.length_append, List.length_take, List.length_replicate]
          omega
        · intro j hj
          rw [List.getElem?_append_left, List.getElem?_take, if_pos (by omega)]
          rw [List.length_take]
          omega
        · intro j hj hj2
          rw [List.getElem?_append_right, List.getElem?_replicate, List.length_take,
            if_pos (by omega)]
          rw [List.length_take]
          omega

theorem c8_witness :
    ∃ a', (_growAllArraysToLargestAmong [some [JSVal.num 1], some [JSVal.num 1, JSVal.num 2]])[0]?
        = some (some a')
      ∧ a'.length = maxLenAmong [some [JSVal.num 1], some [JSVal.num 1, JSVal.num 2]]
      ∧ (1 : ℕ) ≤ a'.length
      ∧ (∀ j, j < (1 : ℕ) → a'[j]? = [JSVal.num 1][j]?)
      ∧ (∀ j, (1 : ℕ) ≤ j → j < maxLenAmong [some [JSVal.num 1], some [JSVal.num 1, JSVal.num 2]] →
          a'[j]? = some JSVal.undef) :=
  c8_grow_arrays [some [JSVal.num 1], some [JSVal.num 1, JSVal.num 2]] 0 [JSVal.num 1] (by rfl)

/-- Model of the Firestore database the repository talks to: document data
by document path. -/
structure FirestoreDb where
  docs : List (String × JSVal)

/-- Model of a repository instance built on the `FirestoreRepository`
trait: its database, its collection path (`_path`), and the concrete
subclass's `_fromDocument` override (the base implementation throws
`MethodNotImplementedError`; a concrete repository supplies the
reconstruction, which `findById` calls with the snapshot data and both
prefixes set to an underscore). -/
structure Repo where
  db : FirestoreDb
  path : String
  fromDoc : JSVal → Except ErrKind JSVal

/-- `_docpath(id)` (lines 108-110): `[this._path, id].join('/')`. -/
def Repo.docpath (r : Repo) (id : String) : String := r.path ++ "/" ++ id

/-- `findById(id)` (lines 94-101): a falsy id returns `null`; otherwise
the snapshot at `_docpath(id)` is fetched and
`snapshot.exists && this._fromDocument(...)` evaluates to `false` for a
missing document and to the reconstruction's result otherwise (errors
propagate unchanged; `_translateError` is a pass-through). -/
def Repo.findById (r : Repo) (id : String) : Except ErrKind JSVal :=
  if id = "" then Except.ok JSVal.null
  else
    match objGet (r.docpath id) r.db.docs with
    | none => Except.ok (JSVal.boolV false)
    | some d => r.fromDoc d

/-- The write of `upsert` (lines 89-92) for an entity that already has an
identifier: store the entity's document at its path.  (Merge options and
uuid generation for missing identifiers are not modelled; the claims'
entities carry identifiers.) -/
def Repo.upsertDoc (r : Repo) (eid : String) (doc : JSVal) : FirestoreDb :=
  ⟨objSet r.db.docs (r.docpath eid) doc⟩

/-- `insert(entity)` (lines 82-87): if `findById(entity.id)` yields a
truthy value, throw with the locally bound `ObjectExistsError` — which
line 12 binds to the module's `ObjectNotFoundError` class — otherwise
upsert. -/
def Repo.insert (r : Repo) (eid : String) (doc : JSVal) : Except ErrKind FirestoreDb := do
  let found ← r.findById eid
  if found.truthy then Except.error boundObjectExistsError
  else Except.ok (r.upsertDoc eid doc)

/-- `getById(id)` (lines 103-106): call `findById`; a falsy result throws
`ObjectNotFoundError(this._docpath(id))`; otherwise the method body ends
without a `return` statement, so the call resolves to `undefined` rather
than to the found entity. -/
def Repo.getById (r : Repo) (id : String) : Except ErrKind JSVal := do
  let it ← r.findById id
  if it.truthy = false then Except.error boundObjectNotFoundError
  else Except.ok JSVal.undef

/-- A concrete repository for the C9 failing input: collection "fakes",
one stored document at path "fakes/1", reconstruction returning the
document itself. -/
def c9repo : Repo :=
  { db := ⟨[("fakes/1", JSVal.obj [("_id", JSVal.str "1")])]⟩
    path := "fakes"
    fromDoc := fun d => Except.ok d }

/-- Claim C9, evaluated at the failing input: inserting an entity whose
identifier already maps to a document does throw, but the thrown error is
of the *same* kind as the not-found error, because line 12 binds the local
name `ObjectExistsError` to `errors.ObjectNotFoundError` instead of
`errors.ObjectExistsError`.  The error module itself does offer the
distinct already-exists kind the claim (and spec taxonomy) require, which
is why this is a defect of the code rather than of the claim. -/
theorem c9_insert_error_kind :
    Repo.insert c9repo "1" (JSVal.obj []) = Except.error ErrKind.objectNotFound
    ∧ boundObjectExistsError = boundObjectNotFoundError
    ∧ ErrKind.objectExists ≠ ErrKind.objectNotFound :=
  ⟨rfl, rfl, fun h => ErrKind.noConfusion h⟩

/-- A concrete repository for the C10 witness. -/
def c10repo : Repo :=
  { db := ⟨[("things/7", JSVal.obj [("_id", JSVal.str "7")])]⟩
    path := "things"
    fromDoc := fun d => Except.ok d }

/-- Claim C10: whenever `findById` returns a value (rather than throws),
`getById` throws the not-found error exactly when that value is falsy (no
entity found); when `findById` produced a truthy reconstructed entity,
`getById` completes without throwing but resolves to `undefined` — not to
the found entity — because its body has no `return` statement. -/
theorem c10_getById_returns_undefined (r : Repo) (id : String) (v : JSVal)
    (h : r.findById id = Except.ok v) :
    (v.truthy = true → r.getById id = Except.ok JSVal.undef)
    ∧ (v.truthy = false → r.getById id = Except.error ErrKind.objectNotFound) := by
  constructor
  · intro ht
    unfold Repo.getById
    rw [h, exceptBind_ok]
    simp [ht]
  · intro hf
    unfold Repo.getById
    rw [h, exceptBind_ok]
    simp [hf, boundObjectNotFoundError]

theorem c10_witness :
    Repo.getById c10repo "7" = Except.ok JSVal.undef :=
  (c10_getById_returns_undefined c10repo "7" (JSVal.obj [("_id", JSVal.str "7")])
    (by rfl)).1 (by rfl)
